import Mathlib

/-!
Verification development for the NCAA football statistics scraper.

This file gives a shallow embedding, in Lean, of the algorithmic core of the
scraper and proves properties of it:

* the HTML statistics-table parser `PlayerStatsScraper._parse_stats_table`
  (header resolution from a thead or the first table row, positional
  header-to-cell binding, the repeated-header-row skip heuristic, and the
  placeholder-row filter);
* the retrying fetch loop `PlayerStatsScraper._fetch`;
* the global `RateLimiter.wait` pacing gate;
* the paginated letter-index discovery `PlayerIndexScraper._scrape_letter_pages`
  together with the URL deduplication of `get_all_player_urls`;
* the resume-set filtering of `scrape_multiple_players`, the success-rate
  report of `NCAAFootballScraper._run_player_scraping`, and the resume-set
  listing `get_existing_player_files` / `CouchDBClient.get_all_document_ids`.

HTML documents are modelled structurally: a table carries an optional thead
row group, an optional tbody row group, and any remaining rows directly under
the table, in that document order; a cell carries its tag (th or td), its
scope attribute, and its whitespace-stripped text.  Python dictionaries are
modelled as insertion-ordered association lists with update-in-place on
repeated keys.  Python string operations used by the code are modelled over
the character list of a Lean string.
-/

namespace NCAAF

/-- Tag of a table cell: a header cell (th) or a data cell (td). -/
inductive CellTag
  | th
  | td
deriving DecidableEq, Repr

/-- Model of an HTML table cell: its tag, its scope attribute (if any), and
the whitespace-stripped text returned by get_text(strip=True). -/
structure Cell where
  tag : CellTag
  scope : Option String
  text : String
deriving DecidableEq, Repr

/-- Model of a table row (tr): its cells in document order.  Both th and td
children are cells; find_all on th,td returns them in this order. -/
structure Row where
  cells : List Cell
deriving DecidableEq, Repr

/-- Model of an HTML table node: an optional thead row group, an optional
tbody row group, and rows appearing directly under the table, in document
order (thead first, then tbody, then loose rows). -/
structure HtmlTable where
  thead : Option (List Row)
  tbody : Option (List Row)
  looseRows : List Row
deriving DecidableEq, Repr

/-- All tr descendants of the table in document order, as returned by
table.find_all applied to tr. -/
def HtmlTable.allRows (t : HtmlTable) : List Row :=
  t.thead.getD [] ++ t.tbody.getD [] ++ t.looseRows

/-- Header texts taken from one row: the stripped text of every th or td
cell, keeping only non-empty texts (if header_text: headers.append(...)). -/
def headerCellTexts (r : Row) : List String :=
  (r.cells.map Cell.text).filter (fun s => s ≠ "")

/-- Headers resolved from the thead element, when present: the non-empty cell
texts of the last tr of the thead (header_rows[-1]); empty if there is no
thead or the thead has no rows. -/
def theadHeaders (t : HtmlTable) : List String :=
  match t.thead with
  | none => []
  | some trs =>
    match trs.getLast? with
    | none => []
    | some r => headerCellTexts r

/-- Fallback headers: the non-empty cell texts of the first tr of the table
(table.find applied to tr), empty if the table has no rows at all. -/
def firstRowHeaders (t : HtmlTable) : List String :=
  match t.allRows.head? with
  | none => []
  | some r => headerCellTexts r

/-- Header resolution of _parse_stats_table: try the thead first; if that
produced no headers, fall back to the first row of the table. -/
def resolveHeaders (t : HtmlTable) : List String :=
  let headers := theadHeaders t
  if headers = [] then firstRowHeaders t else headers

/-- Candidate data rows: the rows of the tbody when one is present, else all
rows of the table except the first (all_rows[1:]). -/
def dataRows (t : HtmlTable) : List Row :=
  match t.tbody with
  | some trs => trs
  | none => t.allRows.drop 1

/-- Test for a column-header cell: a th whose scope attribute is col, the
pattern matched by row.find for th with scope=col. -/
def isColHeaderCell (c : Cell) : Bool :=
  c.tag = CellTag.th && c.scope = some "col"

/-- Skip heuristic for rows inside the body: the row is skipped when
row.find finds any th cell with scope=col among its cells. -/
def rowHasColHeader (r : Row) : Bool :=
  r.cells.any isColHeaderCell

/-- Python dict assignment d[k] = v on an insertion-ordered dictionary,
modelled as an association list: update the existing entry in place if the
key is present, else append the new entry. -/
def dictInsert (m : List (String × String)) (k v : String) :
    List (String × String) :=
  if m.any (fun p => p.1 = k) then
    m.map (fun p => if p.1 = k then (k, v) else p)
  else m ++ [(k, v)]

/-- Loop body of the cell-to-header matching: for i, cell in enumerate(cells),
if i < len(headers) then row_data[headers[i]] = cell text. -/
def rowRecordAux (headers : List String) :
    List (String × String) → Nat → List Cell → List (String × String)
  | m, _, [] => m
  | m, i, c :: cs =>
    if h : i < headers.length then
      rowRecordAux headers (dictInsert m (headers.get ⟨i, h⟩) c.text) (i + 1) cs
    else
      rowRecordAux headers m (i + 1) cs

/-- Record built from one row: each cell at position i with i < len(headers)
is written to the dictionary under headers[i]; excess cells are ignored. -/
def rowRecord (headers : List String) (cells : List Cell) :
    List (String × String) :=
  rowRecordAux headers [] 0 cells

/-- Test for a meaningful value: value and value not in the list containing
the dash, the empty string and the em-dash. -/
def meaningfulValue (v : String) : Bool :=
  v ≠ "" && v ≠ "-" && v ≠ "—"

/-- Processing of one candidate data row: skip it if it contains a
column-header cell; otherwise, if it has at least one cell, build its record
and keep the record only when some value is meaningful. -/
def processRow (headers : List String) (r : Row) :
    Option (List (String × String)) :=
  if rowHasColHeader r then none
  else if r.cells.length > 0 then
    let rd := rowRecord headers r.cells
    if rd.any (fun p => meaningfulValue p.2) then some rd else none
  else none

/-- Embedding of PlayerStatsScraper._parse_stats_table: resolve headers,
return no rows when none are found, else process every candidate data row. -/
def parseStatsTable (t : HtmlTable) : List (List (String × String)) :=
  let headers := resolveHeaders t
  if headers = [] then []
  else (dataRows t).filterMap (processRow headers)

/-! ### Fetch client (PlayerStatsScraper._fetch) -/

/-- Outcome of one attempt of the fetch loop, as seen by the loop body: a
successful 2xx response with a body, a 429 rate-limit response, or a
connection/timeout error (aiohttp.ClientError or asyncio.TimeoutError). -/
inductive FetchOutcome
  | success (body : String)
  | rateLimited
  | transientError
deriving DecidableEq, Repr

/-- Default value of the retries argument of _fetch. -/
def defaultRetries : Nat := 5

/-- Body of the for attempt in range(retries) loop of _fetch, indexed by the
current attempt number and the number of loop iterations still available
(remaining = retries - attempt).  Returns the number of attempts made and the
fetched document, if any.  A 429 response sleeps and continues the loop; a
transient error retries unless attempt = retries - 1 (remaining = 1), in
which case the fetch returns None; falling off the end of the loop (all
iterations spent on 429 responses) also returns None. -/
def fetchGo (target : Nat → FetchOutcome) : Nat → Nat → Nat × Option String
  | attempt, 0 => (attempt, none)
  | attempt, remaining + 1 =>
    match target attempt with
    | FetchOutcome.success body => (attempt + 1, some body)
    | FetchOutcome.rateLimited => fetchGo target (attempt + 1) remaining
    | FetchOutcome.transientError =>
      if remaining = 0 then (attempt + 1, none)
      else fetchGo target (attempt + 1) remaining

/-- Embedding of PlayerStatsScraper._fetch: run the attempt loop from
attempt 0 with retries iterations available, returning the number of attempts
made together with the result. -/
def fetchWithRetries (target : Nat → FetchOutcome) (retries : Nat) :
    Nat × Option String :=
  fetchGo target 0 retries

/-! ### Rate limiter (RateLimiter.wait)

The asyncio lock is held for the whole body of wait, so concurrent callers
execute the body strictly one after another; a run of N concurrent calls is
therefore a sequential composition of N body executions in some order.  The
event-loop clock only moves forward, and asyncio.sleep(d) suspends for at
least d seconds.  Both facts are captured by two non-negative slack values
per call: the time elapsing before the body reads the clock, and the excess
of the actual sleep over the requested one. -/

/-- Shared state of the rate limiter: the event-loop clock at the moment the
previous body finished, and the stored _last_time. -/
structure RLState where
  clock : ℚ
  last : ℚ
deriving Repr

/-- Timing slack of one wait call: the clock advance before now is read, and
the oversleep of asyncio.sleep beyond the requested duration. -/
structure WaitTiming where
  preDelay : ℚ
  overSleep : ℚ
deriving Repr

/-- Embedding of RateLimiter.wait: read now, compute the elapsed time since
the last grant, sleep max(0, min_interval - elapsed), then record the time
after the sleep as the new _last_time.  Returns the new state and the grant
timestamp (the recorded _last_time). -/
def rateLimiterWait (minInterval : ℚ) (d : WaitTiming) (s : RLState) :
    RLState × ℚ :=
  let now := s.clock + d.preDelay
  let elapsed := now - s.last
  let waitFor := max 0 (minInterval - elapsed)
  let grant := now + waitFor + d.overSleep
  (⟨grant, grant⟩, grant)

/-- Sequential composition of the wait bodies of a list of callers (the order
in which the lock serializes them), returning the grant timestamps. -/
def runWaits (minInterval : ℚ) : List WaitTiming → RLState → List ℚ
  | [], _ => []
  | d :: ds, s =>
    let step := rateLimiterWait minInterval d s
    step.2 :: runWaits minInterval ds step.1

/-! ### Index discovery (PlayerIndexScraper) -/

/-- Player entry extracted from an index page: the entry appended by
_extract_players_from_page, keeping the fields the discovery pipeline uses. -/
structure PlayerRef where
  name : String
  fullUrl : String
deriving DecidableEq, Repr

/-- Embedding of the while True pagination loop of _scrape_letter_pages.  The
environment is a function from page number to the players extracted from that
page, or none when the request fails or the page answers with a non-200
status.  Returns the page numbers fetched, in order, and the accumulated
players.  The loop runs unboundedly in the source; the fuel argument bounds
the recursion and is irrelevant whenever a terminating page exists within
fuel pages. -/
def scrapeLetterPages (pages : Nat → Option (List PlayerRef)) :
    Nat → Nat → List Nat × List PlayerRef
  | 0, _ => ([], [])
  | fuel + 1, pageNum =>
    match pages pageNum with
    | none => ([pageNum], [])
    | some players =>
      if players = [] then ([pageNum], [])
      else
        let rest := scrapeLetterPages pages fuel (pageNum + 1)
        (pageNum :: rest.1, players ++ rest.2)

/-- Loop body of get_all_player_urls: append the URL to the ordered list
unless it is already present. -/
def addUrlIfNew (acc : List String) (u : String) : List String :=
  if u ∈ acc then acc else acc ++ [u]

/-- Embedding of the deduplication of get_all_player_urls: walk the players
in order and collect each full_url the first time it is seen. -/
def orderedUrls (players : List PlayerRef) : List String :=
  players.foldl (fun acc p => addUrlIfNew acc p.fullUrl) []

/-- Modelled from the spec: deduplication by full resolved URL with the
first occurrence winning, written as a direct recursion for comparison with
the accumulator loop of get_all_player_urls. -/
def firstOccurrences : List String → List String
  | [] => []
  | u :: rest => u :: (firstOccurrences rest).filter (fun v => v ≠ u)

/-! ### Python string operations

The Python string operations used by the identifier and resume logic are
modelled over the character list of a Lean string, so that every definition
evaluates inside the kernel. -/

/-- Helper for str.split: split a character list at every non-overlapping
occurrence of the separator c0 :: rest0, scanning left to right.  The fuel
argument makes the recursion structural; every step consumes at least one
character, so fuel equal to the length of the input is always enough. -/
def splitOnCharsAux (c0 : Char) (rest0 : List Char) :
    Nat → List Char → List (List Char)
  | _, [] => [[]]
  | 0, s => [s]
  | fuel + 1, c :: cs =>
    if List.isPrefixOf (c0 :: rest0) (c :: cs) then
      [] :: splitOnCharsAux c0 rest0 fuel (cs.drop rest0.length)
    else
      match splitOnCharsAux c0 rest0 fuel cs with
      | [] => [[c]]
      | seg :: segs => (c :: seg) :: segs

/-- Model of the Python str.split(sep) for a non-empty separator; for an
empty separator the string is returned whole (the code never splits on an
empty separator). -/
def pySplit (s sep : String) : List String :=
  match sep.data with
  | [] => [s]
  | c0 :: rest0 =>
    (splitOnCharsAux c0 rest0 s.data.length s.data).map String.mk

/-- Model of the Python substring test sub in s. -/
def pyContains (s sub : String) : Bool :=
  pyContainsAux sub.data s.data
where
  pyContainsAux (sep : List Char) : List Char → Bool
  | [] => List.isPrefixOf sep []
  | c :: cs => List.isPrefixOf sep (c :: cs) || pyContainsAux sep cs

/-- Model of the Python str.endswith. -/
def pyEndsWith (s sfx : String) : Bool :=
  List.isSuffixOf sfx.data s.data

/-- Model of the Python str.startswith. -/
def pyStartsWith (s pre : String) : Bool :=
  List.isPrefixOf pre.data s.data

/-- Model of the Python slice s[:-n]. -/
def pyDropRight (s : String) (n : Nat) : String :=
  String.mk (s.data.take (s.data.length - n))

/-! ### Identifier derivation and resume filtering -/

/-- Embedding of utils.extract_player_id_from_url: when the URL contains the
profile path, take everything after its last occurrence; if that ends in
.html, strip the suffix and return the identifier, else return None. -/
def extractPlayerIdFromUrl (url : String) : Option String :=
  if pyContains url "/cfb/players/" then
    let filename := (pySplit url "/cfb/players/").getLastD ""
    if pyEndsWith filename ".html" then some (pyDropRight filename 5)
    else none
  else none

/-- Identifier under which scrape_letter_index caches a letter page list:
the stem of config.INDEX_CACHE_PATTERN, player_index_{letter}. -/
def indexCacheStem (letter : String) : String :=
  "player_index_" ++ letter

/-- Identifier under which the orchestrator saves the summary report. -/
def summaryReportStem : String :=
  "scraping_summary"

/-- Filter of get_existing_player_files: a stored stem is kept in the resume
set unless it starts with index_, equals all_players_index, or starts with
scraping_summary. -/
def keepPlayerFileId (pid : String) : Bool :=
  !(pyStartsWith pid "index_") && pid ≠ "all_players_index" &&
    !(pyStartsWith pid "scraping_summary")

/-- Embedding of utils.get_existing_player_files over the list of stems of
the *.json files in the player data directory. -/
def getExistingPlayerFiles (stems : List String) : List String :=
  stems.filter keepPlayerFileId

/-- Filter of CouchDBClient.get_all_document_ids: every document id not
starting with an underscore is returned. -/
def couchKeepDocId (docId : String) : Bool :=
  !(pyStartsWith docId "_")

/-- Embedding of CouchDBClient.get_all_document_ids over the row ids of the
_all_docs response. -/
def getAllDocumentIds (ids : List String) : List String :=
  ids.filter couchKeepDocId

/-! ### Resume-filtered batch scraping and the run report -/

/-- Work-queue filter of scrape_multiple_players: with resume enabled, keep a
URL only when its extracted identifier is not in the resume set (a URL with
no extractable identifier is kept, since None is never in the set). -/
def urlsToProcess (existing : List String) (playerUrls : List String)
    (resume : Bool) : List String :=
  if resume then
    playerUrls.filter (fun url =>
      match extractPlayerIdFromUrl url with
      | some pid => !(existing.contains pid)
      | none => true)
  else playerUrls

/-- Number of player-profile fetches a batch run initiates: one scrape_player
call, hence one fetch, per URL left in the work queue. -/
def profileFetchCount (existing : List String) (playerUrls : List String)
    (resume : Bool) : Nat :=
  (urlsToProcess existing playerUrls resume).length

/-- Per-URL results dictionary of scrape_multiple_players, given an oracle
for whether scraping an individual URL succeeds. -/
def scrapeResults (existing : List String) (playerUrls : List String)
    (resume : Bool) (outcome : String → Bool) : List (String × Bool) :=
  (urlsToProcess existing playerUrls resume).map (fun u => (u, outcome u))

/-- Success rate computed by NCAAFootballScraper._run_player_scraping:
success_count / total_count * 100 when total_count > 0, else 0. -/
def successRate (results : List (String × Bool)) : ℚ :=
  let successCount := (results.filter (fun p => p.2)).length
  let totalCount := results.length
  if totalCount > 0 then (successCount : ℚ) / (totalCount : ℚ) * 100 else 0

/-- Return value of _run_player_scraping: the run is considered successful
when the success rate is at least 80 percent. -/
def runPlayerScrapingReport (results : List (String × Bool)) : Bool :=
  decide (successRate results ≥ 80)

/-- Exit status chosen by main: sys.exit(0 if success else 1). -/
def mainExitCode (success : Bool) : Nat :=
  if success then 0 else 1

/-! ## Supporting lemmas about the row parser -/

/-- Inserting a key absent from the dictionary appends the new entry. -/
theorem dictInsert_eq_append (m : List (String × String)) (k v : String)
    (h : ∀ p ∈ m, p.1 ≠ k) : dictInsert m k v = m ++ [(k, v)] := by
  have hc : m.any (fun p => p.1 = k) = false := by
    simp only [List.any_eq_false, decide_eq_true_eq]
    exact h
  simp [dictInsert, hc]

/-- Loop invariant of the cell-matching loop: when no key of the accumulator
occurs among the headers still to be consumed and the headers are free of
duplicates, the loop appends exactly the positional zip of the remaining
headers with the cell texts. -/
theorem rowRecordAux_eq_zip (headers : List String) (hnd : headers.Nodup)
    (cs : List Cell) :
    ∀ (i : Nat) (m : List (String × String)),
      (∀ p ∈ m, p.1 ∉ headers.drop i) →
      rowRecordAux headers m i cs = m ++ (headers.drop i).zip (cs.map Cell.text) := by
  induction cs with
  | nil => intro i m _; simp [rowRecordAux]
  | cons c cs ih =>
    intro i m hm
    by_cases h : i < headers.length
    · have hdrop : headers.drop i = headers[i] :: headers.drop (i + 1) :=
        List.drop_eq_getElem_cons h
      have hnodrop : (headers.drop i).Nodup :=
        hnd.sublist (List.drop_sublist i headers)
      have hnotmem : headers[i] ∉ headers.drop (i + 1) := by
        rw [hdrop] at hnodrop
        exact (List.nodup_cons.mp hnodrop).1
      have hins : dictInsert m (headers.get ⟨i, h⟩) c.text
          = m ++ [(headers[i], c.text)] := by
        apply dictInsert_eq_append
        intro p hp hpk
        exact hm p hp (by rw [hpk, hdrop]; exact List.mem_cons_self _ _)
      have hsub : headers.drop (i + 1) ⊆ headers.drop i := by
        rw [hdrop]; exact List.subset_cons_self _ _
      rw [rowRecordAux, dif_pos h, hins,
        ih (i + 1) (m ++ [(headers[i], c.text)]) ?_]
      · rw [hdrop, List.map_cons, List.zip_cons_cons]
        simp only [List.append_assoc, List.singleton_append]
      · intro p hp
        rcases List.mem_append.mp hp with hp1 | hp2
        · intro hc; exact hm p hp1 (hsub hc)
        · simp only [List.mem_singleton] at hp2
          rw [hp2]
          exact hnotmem
    · have hlen : headers.length ≤ i := Nat.le_of_not_lt h
      have h1 : headers.drop i = [] := List.drop_eq_nil_of_le hlen
      have h2 : headers.drop (i + 1) = [] :=
        List.drop_eq_nil_of_le (Nat.le_succ_of_le hlen)
      rw [rowRecordAux, dif_neg h, ih (i + 1) m (by simp [h2]), h1, h2]
      simp

/-- With duplicate-free headers the row record is the positional zip of the
headers with the cell texts, truncated to the shorter of the two. -/
theorem rowRecord_eq_zip (headers : List String) (cells : List Cell)
    (hnd : headers.Nodup) :
    rowRecord headers cells = headers.zip (cells.map Cell.text) := by
  simpa [rowRecord] using
    rowRecordAux_eq_zip headers hnd cells 0 [] (by simp)

/-- Characterization of the per-row processing: it produces a record exactly
for a row with no column-header cell, at least one cell, and at least one
meaningful value, and the record is the positional row record. -/
theorem processRow_eq_some_iff (headers : List String) (r : Row)
    (rec : List (String × String)) :
    processRow headers r = some rec ↔
      rowHasColHeader r = false ∧ r.cells ≠ [] ∧
      rec = rowRecord headers r.cells ∧
      (rowRecord headers r.cells).any (fun p => meaningfulValue p.2) = true := by
  unfold processRow
  by_cases h1 : rowHasColHeader r = true
  · simp [h1]
  · have h1f : rowHasColHeader r = false := Bool.not_eq_true _ ▸ h1
    by_cases h2 : r.cells = []
    · simp [h1f, h2]
    · have hlen : r.cells.length > 0 := List.length_pos.mpr h2
      by_cases h3 :
          (rowRecord headers r.cells).any (fun p => meaningfulValue p.2) = true
      · simp only [h1f, Bool.false_eq_true, if_false, hlen, if_true, h3,
          ne_eq, h2, not_false_eq_true, true_and]
        exact ⟨fun hrec => ⟨(Option.some_inj.mp hrec).symm, trivial⟩,
          fun hrec => by rw [hrec.1]⟩
      · have h3f : (rowRecord headers r.cells).any
            (fun p => meaningfulValue p.2) = false := Bool.not_eq_true _ ▸ h3
        simp [h1f, hlen, h3f]

/-! ## C1 -/

/-- C1: positional header-to-cell binding of _parse_stats_table.  For
duplicate-free headers, the record built from a row is exactly the
positional zip of the header list with the cell texts: its length is the
minimum of the two lengths (so a row with fewer cells than headers leaves
the trailing headers absent, and cells beyond the header count are dropped
without error), and a cell at position i contributes a binding exactly when
i is less than the number of headers. -/
theorem claim_cells_bind_positionally (headers : List String)
    (cells : List Cell) (hnd : headers.Nodup) :
    rowRecord headers cells = headers.zip (cells.map Cell.text) ∧
    (rowRecord headers cells).length = min headers.length cells.length ∧
    (∀ i, i < cells.length →
      (i < (rowRecord headers cells).length ↔ i < headers.length)) := by
  have h1 := rowRecord_eq_zip headers cells hnd
  refine ⟨h1, ?_, ?_⟩
  · rw [h1]; simp
  · intro i hi
    rw [h1]
    simp only [List.length_zip, List.length_map]
    omega

/-- Witness for C1: headers [A, B, C] with a row of cells [x, y] produce the
record binding A to x and B to y, with no binding for C. -/
theorem claim_cells_bind_positionally_witness :
    (["A", "B", "C"] : List String).Nodup ∧
    rowRecord ["A", "B", "C"]
        [⟨CellTag.td, none, "x"⟩, ⟨CellTag.td, none, "y"⟩] =
      [("A", "x"), ("B", "y")] ∧
    (rowRecord ["A", "B", "C"]
        [⟨CellTag.td, none, "x"⟩, ⟨CellTag.td, none, "y"⟩]).filter
        (fun p => p.1 = "C") = [] := by
  have h := (claim_cells_bind_positionally ["A", "B", "C"]
    [⟨CellTag.td, none, "x"⟩, ⟨CellTag.td, none, "y"⟩] (by decide)).1
  refine ⟨by decide, ?_, ?_⟩
  · rw [h]; decide
  · rw [h]; decide

/-- Running any over the second components of an association list is running
it over the list of pairs. -/
theorem any_map_snd (l : List (String × String)) (f : String → Bool) :
    (l.map Prod.snd).any f = l.any (fun p => f p.2) := by
  induction l with
  | nil => rfl
  | cons a l ih => simp [List.any_cons, ih]

/-! ## C2 -/

/-- C2: a record appears in the parser output exactly when it comes from a
candidate data row that is not a repeated header row, has at least one cell,
and has at least one value that is neither empty nor a placeholder dash or
em-dash; in particular a row all of whose values are empty or dashes is
excluded from the output. -/
theorem claim_row_inclusion_iff (t : HtmlTable)
    (rec : List (String × String)) :
    rec ∈ parseStatsTable t ↔
      (resolveHeaders t ≠ [] ∧
        ∃ r ∈ dataRows t,
          rowHasColHeader r = false ∧ r.cells ≠ [] ∧
          rec = rowRecord (resolveHeaders t) r.cells ∧
          (rec.map Prod.snd).any meaningfulValue = true) := by
  unfold parseStatsTable
  by_cases hh : resolveHeaders t = []
  · simp [hh]
  · simp only [hh, if_false, List.mem_filterMap, ne_eq, not_false_eq_true,
      true_and]
    constructor
    · rintro ⟨r, hr, hproc⟩
      obtain ⟨h1, h2, h3, h4⟩ := (processRow_eq_some_iff _ _ _).mp hproc
      refine ⟨r, hr, h1, h2, h3, ?_⟩
      rw [h3, any_map_snd]
      exact h4
    · rintro ⟨r, hr, h1, h2, h3, h4⟩
      refine ⟨r, hr, (processRow_eq_some_iff _ _ _).mpr ⟨h1, h2, h3, ?_⟩⟩
      rw [h3, any_map_snd] at h4
      exact h4

/-! ## C3 -/

/-- C3 counterexample: a table whose thead is present but whose last thead
row carries only empty cell texts.  The claim says headers then come from the
last thead row, hence resolve to nothing, and the table is skipped with an
empty row list; the code instead falls back to the first row of the table
(the first thead row) and parses the body, producing a non-empty output. -/
theorem claim_header_resolution_counterexample :
    (HtmlTable.mk
        (some [Row.mk [Cell.mk CellTag.th none "X"],
               Row.mk [Cell.mk CellTag.th none ""]])
        (some [Row.mk [Cell.mk CellTag.td none "1"]]) []).thead ≠ none ∧
    theadHeaders
      (HtmlTable.mk
        (some [Row.mk [Cell.mk CellTag.th none "X"],
               Row.mk [Cell.mk CellTag.th none ""]])
        (some [Row.mk [Cell.mk CellTag.td none "1"]]) []) = [] ∧
    parseStatsTable
      (HtmlTable.mk
        (some [Row.mk [Cell.mk CellTag.th none "X"],
               Row.mk [Cell.mk CellTag.th none ""]])
        (some [Row.mk [Cell.mk CellTag.td none "1"]]) []) = [[("X", "1")]] ∧
    parseStatsTable
      (HtmlTable.mk
        (some [Row.mk [Cell.mk CellTag.th none "X"],
               Row.mk [Cell.mk CellTag.th none ""]])
        (some [Row.mk [Cell.mk CellTag.td none "1"]]) []) ≠ [] := by
  refine ⟨by decide, by decide, by decide, by decide⟩

/-- C3 (amended): header resolution uses the non-empty cell texts of the
last row of the thead whenever that yields at least one header; otherwise —
including when a thead is present but yields no headers — it falls back to
the non-empty cell texts of the first row of the table; and when no headers
are resolved at all the table is skipped, producing an empty row list. -/
theorem claim_header_resolution_amended (t : HtmlTable) :
    (theadHeaders t ≠ [] → resolveHeaders t = theadHeaders t) ∧
    (theadHeaders t = [] → resolveHeaders t = firstRowHeaders t) ∧
    (resolveHeaders t = [] → parseStatsTable t = []) := by
  refine ⟨?_, ?_, ?_⟩
  · intro h; simp [resolveHeaders, h]
  · intro h; simp [resolveHeaders, h]
  · intro h; simp [parseStatsTable, h]

/-- Witness for the amended C3: a table with a usable thead takes its headers
from the thead, and a table with no thead takes them from its first row. -/
theorem claim_header_resolution_amended_witness :
    resolveHeaders
      (HtmlTable.mk (some [Row.mk [Cell.mk CellTag.th none "H"]]) none
        [Row.mk [Cell.mk CellTag.td none "1"]]) = ["H"] ∧
    resolveHeaders
      (HtmlTable.mk none none [Row.mk [Cell.mk CellTag.th none "A"]]) = ["A"] := by
  constructor
  · have h := (claim_header_resolution_amended
      (HtmlTable.mk (some [Row.mk [Cell.mk CellTag.th none "H"]]) none
        [Row.mk [Cell.mk CellTag.td none "1"]])).1 (by decide)
    rw [h]; decide
  · have h := (claim_header_resolution_amended
      (HtmlTable.mk none none [Row.mk [Cell.mk CellTag.th none "A"]])).2.1
      (by decide)
    rw [h]; decide

/-! ## C4 -/

/-- C4 counterexample: a candidate data row whose first cell is an ordinary
data cell but whose second cell is a th with scope col.  The claim says such
a row is not skipped (only a row whose *first* cell is a column-header cell
is); the code skips it, because row.find searches the whole row, so the
parsed table is empty even though the row carries a meaningful value. -/
theorem claim_row_skip_counterexample :
    isColHeaderCell (Cell.mk CellTag.td none "1") = false ∧
    rowHasColHeader
      (Row.mk [Cell.mk CellTag.td none "1", Cell.mk CellTag.th (some "col") "X"])
      = true ∧
    parseStatsTable
      (HtmlTable.mk none none
        [Row.mk [Cell.mk CellTag.th none "H1", Cell.mk CellTag.th none "H2"],
         Row.mk [Cell.mk CellTag.td none "1",
                 Cell.mk CellTag.th (some "col") "X"]]) = [] := by
  refine ⟨by decide, by decide, by decide⟩

/-- C4 (amended): a candidate row is skipped by the repeated-header
heuristic exactly when some cell of it — in any position, not only the first
— is a th with scope col; a row containing such a cell produces no record,
and a row containing none is dropped only by the no-cells or
all-placeholder checks. -/
theorem claim_row_skip_amended (headers : List String) (r : Row) :
    (rowHasColHeader r = true ↔
      ∃ c ∈ r.cells, c.tag = CellTag.th ∧ c.scope = some "col") ∧
    (rowHasColHeader r = true → processRow headers r = none) ∧
    (rowHasColHeader r = false →
      (processRow headers r = none ↔
        (r.cells = [] ∨
          (rowRecord headers r.cells).any (fun p => meaningfulValue p.2)
            = false))) := by
  refine ⟨?_, ?_, ?_⟩
  · simp [rowHasColHeader, isColHeaderCell, List.any_eq_true]
  · intro h; simp [processRow, h]
  · intro h
    by_cases h2 : r.cells = []
    · simp [processRow, h, h2]
    · have hlen : r.cells.length > 0 := List.length_pos.mpr h2
      by_cases h3 :
          (rowRecord headers r.cells).any (fun p => meaningfulValue p.2) = true
      · simp [processRow, h, hlen, h3, h2]
      · have h3f : (rowRecord headers r.cells).any
            (fun p => meaningfulValue p.2) = false := Bool.not_eq_true _ ▸ h3
        simp [processRow, h, hlen, h3f, h2]

/-- Witness for the amended C4: a row with a scope=col th in second position
produces no record, and a clean row with a meaningful value is not dropped. -/
theorem claim_row_skip_amended_witness :
    processRow ["H1", "H2"]
      (Row.mk [Cell.mk CellTag.td none "1", Cell.mk CellTag.th (some "col") "X"])
      = none ∧
    (processRow ["H1", "H2"] (Row.mk [Cell.mk CellTag.td none "5"]) = none ↔
      ((Row.mk [Cell.mk CellTag.td none "5"]).cells = [] ∨
        (rowRecord ["H1", "H2"]
          (Row.mk [Cell.mk CellTag.td none "5"]).cells).any
          (fun p => meaningfulValue p.2) = false)) := by
  constructor
  · exact (claim_row_skip_amended ["H1", "H2"]
      (Row.mk [Cell.mk CellTag.td none "1",
        Cell.mk CellTag.th (some "col") "X"])).2.1 (by decide)
  · exact (claim_row_skip_amended ["H1", "H2"]
      (Row.mk [Cell.mk CellTag.td none "5"])).2.2 (by decide)

/-! ## C5 -/

/-- Step equation of the fetch loop for a successful response. -/
theorem fetchGo_succ_success {target : Nat → FetchOutcome} {attempt r : Nat}
    {body : String} (h : target attempt = FetchOutcome.success body) :
    fetchGo target attempt (r + 1) = (attempt + 1, some body) := by
  simp [fetchGo, h]

/-- Step equation of the fetch loop for a 429 response. -/
theorem fetchGo_succ_rate {target : Nat → FetchOutcome} {attempt r : Nat}
    (h : target attempt = FetchOutcome.rateLimited) :
    fetchGo target attempt (r + 1) = fetchGo target (attempt + 1) r := by
  simp [fetchGo, h]

/-- Step equation of the fetch loop for a transient error. -/
theorem fetchGo_succ_transient {target : Nat → FetchOutcome} {attempt r : Nat}
    (h : target attempt = FetchOutcome.transientError) :
    fetchGo target attempt (r + 1) =
      if r = 0 then (attempt + 1, none) else fetchGo target (attempt + 1) r := by
  simp [fetchGo, h]

/-- Attempt-count bound of the fetch loop, and its exact behaviour when the
target fails with a transient error at every attempt. -/
theorem fetchGo_spec (target : Nat → FetchOutcome) :
    ∀ (remaining attempt : Nat),
      (fetchGo target attempt remaining).1 ≤ attempt + remaining ∧
      ((∀ i, target i = FetchOutcome.transientError) →
        fetchGo target attempt remaining = (attempt + remaining, none)) := by
  intro remaining
  induction remaining with
  | zero => intro attempt; exact ⟨Nat.le_refl _, fun _ => rfl⟩
  | succ r ih =>
    intro attempt
    cases htarget : target attempt with
    | success body =>
      refine ⟨?_, ?_⟩
      · rw [fetchGo_succ_success htarget]; omega
      · intro hall
        rw [hall attempt] at htarget
        cases htarget
    | rateLimited =>
      refine ⟨?_, ?_⟩
      · rw [fetchGo_succ_rate htarget]
        have := (ih (attempt + 1)).1
        omega
      · intro hall
        rw [hall attempt] at htarget
        cases htarget
    | transientError =>
      by_cases hr : r = 0
      · subst hr
        refine ⟨?_, ?_⟩
        · rw [fetchGo_succ_transient htarget, if_pos rfl]
        · intro _; rw [fetchGo_succ_transient htarget, if_pos rfl]
      · refine ⟨?_, ?_⟩
        · rw [fetchGo_succ_transient htarget, if_neg hr]
          have := (ih (attempt + 1)).1
          omega
        · intro hall
          rw [fetchGo_succ_transient htarget, if_neg hr,
            (ih (attempt + 1)).2 hall]
          congr 1
          omega

/-- C5: the fetch client never makes more than retries attempts, and against
a target that answers every attempt with a transient connection/timeout
error it makes exactly retries attempts and then reports permanent failure
(returns no document). -/
theorem claim_fetch_retry_ceiling (target : Nat → FetchOutcome)
    (retries : Nat) :
    (fetchWithRetries target retries).1 ≤ retries ∧
    ((∀ i, target i = FetchOutcome.transientError) →
      fetchWithRetries target retries = (retries, none)) := by
  have h := fetchGo_spec target retries 0
  exact ⟨by simpa [fetchWithRetries] using h.1,
    fun hall => by simpa [fetchWithRetries] using h.2 hall⟩

/-- Witness for C5: with the default of 5 retries and an always-failing
target, the fetch makes exactly 5 attempts and returns no document. -/
theorem claim_fetch_retry_ceiling_witness :
    fetchWithRetries (fun _ => FetchOutcome.transientError) defaultRetries
      = (defaultRetries, none) :=
  (claim_fetch_retry_ceiling (fun _ => FetchOutcome.transientError)
    defaultRetries).2 (fun _ => rfl)

/-! ## C6 -/

/-- Basic facts about one serialized execution of the wait body: the grant
time is at least min_interval after the previous grant, and the new state
records the grant time as both clock and last grant. -/
theorem rateLimiterWait_grant (minInterval : ℚ) (d : WaitTiming) (s : RLState)
    (_hI : 0 ≤ minInterval) (_hd1 : 0 ≤ d.preDelay) (hd2 : 0 ≤ d.overSleep)
    (_hs : s.last ≤ s.clock) :
    s.last + minInterval ≤ (rateLimiterWait minInterval d s).2 ∧
    (rateLimiterWait minInterval d s).1.last
      = (rateLimiterWait minInterval d s).2 ∧
    (rateLimiterWait minInterval d s).1.clock
      = (rateLimiterWait minInterval d s).2 := by
  refine ⟨?_, rfl, rfl⟩
  show s.last + minInterval ≤
    s.clock + d.preDelay
      + max 0 (minInterval - (s.clock + d.preDelay - s.last)) + d.overSleep
  have hmax := le_max_right 0 (minInterval - (s.clock + d.preDelay - s.last))
  linarith

/-- Lower bound for the k-th grant of a serialized run: it is at least
(k + 1) intervals after the last grant recorded in the initial state. -/
theorem runWaits_lower (minInterval : ℚ) (hI : 0 ≤ minInterval) :
    ∀ (ds : List WaitTiming) (s : RLState),
      (∀ d ∈ ds, 0 ≤ d.preDelay ∧ 0 ≤ d.overSleep) →
      s.last ≤ s.clock →
      ∀ k, k < ds.length →
        s.last + ((k + 1 : Nat) : ℚ) * minInterval
          ≤ (runWaits minInterval ds s).getD k 0 := by
  intro ds
  induction ds with
  | nil => intro s _ _ k hk; simp at hk
  | cons d ds ih =>
    intro s hd hs k hk
    have hd0 := hd d (List.mem_cons_self _ _)
    have hg := rateLimiterWait_grant minInterval d s hI hd0.1 hd0.2 hs
    have hs' : (rateLimiterWait minInterval d s).1.last
        ≤ (rateLimiterWait minInterval d s).1.clock := by
      rw [hg.2.1, hg.2.2]
    cases k with
    | zero =>
      simp only [runWaits, List.getD_cons_zero]
      push_cast
      linarith [hg.1]
    | succ k =>
      simp only [runWaits, List.getD_cons_succ]
      have hrec := ih (rateLimiterWait minInterval d s).1
        (fun e he => hd e (List.mem_cons_of_mem _ he)) hs' k (by simpa using hk)
      rw [hg.2.1] at hrec
      push_cast at hrec ⊢
      linarith [hg.1]

/-- Chain bound: within one serialized run, the j-th grant is at least
(j - i) intervals after the i-th grant. -/
theorem runWaits_chain (minInterval : ℚ) (hI : 0 ≤ minInterval) :
    ∀ (ds : List WaitTiming) (s : RLState),
      (∀ d ∈ ds, 0 ≤ d.preDelay ∧ 0 ≤ d.overSleep) →
      s.last ≤ s.clock →
      ∀ i j, i < j → j < ds.length →
        (runWaits minInterval ds s).getD i 0
            + ((j - i : Nat) : ℚ) * minInterval
          ≤ (runWaits minInterval ds s).getD j 0 := by
  intro ds
  induction ds with
  | nil => intro s _ _ i j hij hj; simp at hj
  | cons d ds ih =>
    intro s hd hs i j hij hj
    have hd0 := hd d (List.mem_cons_self _ _)
    have hg := rateLimiterWait_grant minInterval d s hI hd0.1 hd0.2 hs
    have hs' : (rateLimiterWait minInterval d s).1.last
        ≤ (rateLimiterWait minInterval d s).1.clock := by
      rw [hg.2.1, hg.2.2]
    have hd' : ∀ e ∈ ds, 0 ≤ e.preDelay ∧ 0 ≤ e.overSleep :=
      fun e he => hd e (List.mem_cons_of_mem _ he)
    cases i with
    | zero =>
      cases j with
      | zero => omega
      | succ j =>
        simp only [runWaits, List.getD_cons_zero, List.getD_cons_succ]
        have hlow := runWaits_lower minInterval hI ds
          (rateLimiterWait minInterval d s).1 hd' hs' j (by simpa using hj)
        rw [hg.2.1] at hlow
        simpa using hlow
    | succ i =>
      cases j with
      | zero => omega
      | succ j =>
        simp only [runWaits, List.getD_cons_succ]
        have hrec := ih (rateLimiterWait minInterval d s).1 hd' hs' i j
          (by omega) (by simpa using hj)
        simpa [Nat.succ_sub_succ] using hrec

/-- C6: in a run of N wait calls serialized by the limiter lock, starting
from a consistent state, the grant timestamps form a chain in which the j-th
grant is at least (j - i) times min_interval after the i-th; in particular
any two distinct grants are at least min_interval apart, and the last grant
is at least (N - 1) times min_interval after the first, so the total wall
time spanned by the N grants is at least (N - 1) times min_interval. -/
theorem claim_rate_limiter_serialized (minInterval : ℚ) (ds : List WaitTiming)
    (s : RLState) (hI : 0 ≤ minInterval)
    (hd : ∀ d ∈ ds, 0 ≤ d.preDelay ∧ 0 ≤ d.overSleep)
    (hs : s.last ≤ s.clock) :
    (∀ i j, i < j → j < ds.length →
      (runWaits minInterval ds s).getD i 0
          + ((j - i : Nat) : ℚ) * minInterval
        ≤ (runWaits minInterval ds s).getD j 0) ∧
    (∀ i j, i < j → j < ds.length →
      (runWaits minInterval ds s).getD i 0 + minInterval
        ≤ (runWaits minInterval ds s).getD j 0) ∧
    ((runWaits minInterval ds s).getD 0 0
        + ((ds.length - 1 : Nat) : ℚ) * minInterval
      ≤ (runWaits minInterval ds s).getD (ds.length - 1) 0) := by
  have hchain := runWaits_chain minInterval hI ds s hd hs
  refine ⟨hchain, ?_, ?_⟩
  · intro i j hij hj
    have h := hchain i j hij hj
    have h1 : (1 : ℚ) ≤ ((j - i : Nat) : ℚ) := by
      have : 1 ≤ j - i := by omega
      exact_mod_cast this
    nlinarith
  · rcases Nat.eq_zero_or_pos ds.length with h0 | hpos
    · rw [List.length_eq_zero] at h0
      subst h0
      simp [runWaits]
    · rcases Nat.lt_or_ge 1 ds.length with h2 | h2
      · have h := hchain 0 (ds.length - 1) (by omega) (by omega)
        simpa using h
      · have h1 : ds.length = 1 := by omega
        rw [h1]
        norm_num

/-- Witness for C6: two serialized wait calls with min_interval 3 starting
from the initial state produce the grants 3 and 6, and the theorem yields
the pairwise separation 3 + 3 ≤ 6. -/
theorem claim_rate_limiter_serialized_witness :
    runWaits 3 [WaitTiming.mk 0 0, WaitTiming.mk 1 0] (RLState.mk 0 0)
      = [3, 6] ∧
    (runWaits 3 [WaitTiming.mk 0 0, WaitTiming.mk 1 0]
        (RLState.mk 0 0)).getD 0 0 + ((2 - 1 : Nat) : ℚ) * 3
      ≤ (runWaits 3 [WaitTiming.mk 0 0, WaitTiming.mk 1 0]
        (RLState.mk 0 0)).getD 1 0 := by
  constructor
  · norm_num [runWaits, rateLimiterWait]
  · exact (claim_rate_limiter_serialized 3
      [WaitTiming.mk 0 0, WaitTiming.mk 1 0] (RLState.mk 0 0)
      (by norm_num)
      (by intro d hd; fin_cases hd <;> constructor <;> norm_num)
      (by norm_num)).1 0 1 (by omega) (by norm_num)

/-! ## C7 -/

/-- Pagination loop characterization: when page start + m is the first page
from start onwards yielding no players and every earlier page yields a
non-empty list, the loop fetches exactly the pages start .. start + m and
accumulates the concatenation of the players of pages start .. start + m - 1,
provided the fuel covers the m + 1 iterations actually run. -/
theorem scrapeLetterPages_spec (pages : Nat → Option (List PlayerRef)) :
    ∀ (m fuel start : Nat), m + 1 ≤ fuel →
      pages (start + m) = some [] →
      (∀ k, start ≤ k → k < start + m → ∃ ps, pages k = some ps ∧ ps ≠ []) →
      scrapeLetterPages pages fuel start =
        (List.range' start (m + 1),
          (List.range' start m).flatMap (fun k => (pages k).getD [])) := by
  intro m
  induction m with
  | zero =>
    intro fuel start hfuel hstop _
    obtain ⟨f, rfl⟩ := Nat.exists_eq_add_of_le hfuel
    rw [Nat.add_zero] at hstop
    simp [scrapeLetterPages, hstop, List.range', Nat.add_comm]
  | succ m ih =>
    intro fuel start hfuel hstop hok
    obtain ⟨ps, hps, hpsne⟩ := hok start (Nat.le_refl _) (by omega)
    obtain ⟨f, hf⟩ := Nat.exists_eq_add_of_le hfuel
    have hf2 : fuel = (m + 1 + f) + 1 := by omega
    subst hf2
    have hstep : scrapeLetterPages pages (m + 1 + f + 1) start =
        (start :: (scrapeLetterPages pages (m + 1 + f) (start + 1)).1,
          ps ++ (scrapeLetterPages pages (m + 1 + f) (start + 1)).2) := by
      simp [scrapeLetterPages, hps, hpsne]
    have hrec := ih (m + 1 + f) (start + 1) (by omega)
      (by rw [show start + 1 + m = start + (m + 1) by omega]; exact hstop)
      (fun k hk1 hk2 => hok k (by omega) (by omega))
    rw [hstep, hrec]
    rw [List.range'_succ start (m + 1) 1, List.range'_succ start m 1]
    simp [hps]

/-- Accumulator characterization of get_all_player_urls: folding the
add-if-new body over a list extends the accumulator with the first
occurrences of the URLs not already present. -/
theorem foldl_addUrlIfNew (xs : List String) :
    ∀ acc : List String,
      xs.foldl addUrlIfNew acc =
        acc ++ (firstOccurrences xs).filter (fun v => !(acc.contains v)) := by
  induction xs with
  | nil => intro acc; simp [firstOccurrences]
  | cons u rest ih =>
    intro acc
    by_cases hu : u ∈ acc
    · rw [List.foldl_cons]
      rw [show addUrlIfNew acc u = acc from if_pos hu]
      rw [ih acc]
      congr 1
      rw [firstOccurrences]
      rw [List.filter_cons]
      have : (!(acc.contains u)) = false := by simpa using hu
      rw [this]
      simp only [Bool.false_eq_true, if_false, List.filter_filter]
      apply List.filter_congr
      intro v _
      by_cases hv : v ∈ acc
      · simp [hv]
      · have hvu : v ≠ u := fun hcon => hv (hcon ▸ hu)
        simp [hv, hvu]
    · rw [List.foldl_cons]
      rw [show addUrlIfNew acc u = acc ++ [u] from if_neg hu]
      rw [ih (acc ++ [u])]
      rw [firstOccurrences]
      rw [List.filter_cons]
      have : (!(acc.contains u)) = true := by simpa using hu
      rw [this]
      simp only [if_true, List.filter_filter, List.append_assoc,
        List.singleton_append]
      congr 2
      apply List.filter_congr
      intro v _
      by_cases hvu : v = u
      · simp [hvu]
      · by_cases hv : v ∈ acc
        · simp [hv]
        · have : v ∉ acc ++ [u] := by
            simp only [List.mem_append, List.mem_singleton]
            rintro (h | h)
            · exact hv h
            · exact hvu h
          simp [hvu, hv, this]

/-- Deduplicated URL list of get_all_player_urls: exactly the first
occurrences of the full URLs of the players, in first-seen order. -/
theorem orderedUrls_eq_firstOccurrences (players : List PlayerRef) :
    orderedUrls players = firstOccurrences (players.map PlayerRef.fullUrl) := by
  have h : orderedUrls players
      = (players.map PlayerRef.fullUrl).foldl addUrlIfNew [] := by
    rw [orderedUrls, List.foldl_map]
  rw [h, foldl_addUrlIfNew]
  simp

/-- C7: when page n is the first listing page of a letter yielding zero
extracted profile links (earlier pages all succeed with at least one link),
discovery fetches exactly pages 1 .. n in order, stops at page n, and the
accumulated players are the concatenation of pages 1 .. n - 1 in page order;
deduplicating them by full resolved URL keeps the first occurrence of each
URL in first-seen order. -/
theorem claim_index_pagination (pages : Nat → Option (List PlayerRef))
    (n fuel : Nat) (hn : 1 ≤ n) (hfuel : n ≤ fuel)
    (hstop : pages n = some [])
    (hok : ∀ k, 1 ≤ k → k < n → ∃ ps, pages k = some ps ∧ ps ≠ []) :
    (scrapeLetterPages pages fuel 1).1 = List.range' 1 n ∧
    (scrapeLetterPages pages fuel 1).2 =
      (List.range' 1 (n - 1)).flatMap (fun k => (pages k).getD []) ∧
    orderedUrls (scrapeLetterPages pages fuel 1).2 =
      firstOccurrences
        (((List.range' 1 (n - 1)).flatMap (fun k => (pages k).getD [])).map
          PlayerRef.fullUrl) := by
  obtain ⟨m, rfl⟩ : ∃ m, n = m + 1 := ⟨n - 1, by omega⟩
  have h := scrapeLetterPages_spec pages m fuel 1 (by omega)
    (by rw [Nat.add_comm 1 m]; exact hstop)
    (fun k hk1 hk2 => hok k hk1 (by omega))
  rw [h]
  refine ⟨rfl, by simp, ?_⟩
  simp only [Nat.add_sub_cancel]
  rw [orderedUrls_eq_firstOccurrences]

/-- Witness for C7: a letter whose page 1 has two players, page 2 has one
player repeating an earlier URL, and page 3 is empty: discovery fetches
pages 1, 2, 3, accumulates the three players, and deduplication keeps the
two distinct URLs in first-seen order. -/
theorem claim_index_pagination_witness :
    (scrapeLetterPages
        (fun p => if p = 1 then some [PlayerRef.mk "Alice" "uA",
            PlayerRef.mk "Bob" "uB"]
          else if p = 2 then some [PlayerRef.mk "Ann" "uA"] else some [])
        10 1).1 = [1, 2, 3] ∧
    (scrapeLetterPages
        (fun p => if p = 1 then some [PlayerRef.mk "Alice" "uA",
            PlayerRef.mk "Bob" "uB"]
          else if p = 2 then some [PlayerRef.mk "Ann" "uA"] else some [])
        10 1).2 = [PlayerRef.mk "Alice" "uA", PlayerRef.mk "Bob" "uB",
          PlayerRef.mk "Ann" "uA"] ∧
    orderedUrls [PlayerRef.mk "Alice" "uA", PlayerRef.mk "Bob" "uB",
        PlayerRef.mk "Ann" "uA"] = ["uA", "uB"] := by
  have h := claim_index_pagination
    (fun p => if p = 1 then some [PlayerRef.mk "Alice" "uA",
        PlayerRef.mk "Bob" "uB"]
      else if p = 2 then some [PlayerRef.mk "Ann" "uA"] else some [])
    3 10 (by omega) (by omega) (by decide)
    (by
      intro k hk1 hk2
      interval_cases k
      · exact ⟨_, rfl, by decide⟩
      · exact ⟨_, rfl, by decide⟩)
  refine ⟨?_, ?_, ?_⟩
  · rw [h.1]; decide
  · rw [h.2.1]; decide
  · decide

/-! ## C8 -/

/-- C8: evaluation of a second run with resume enabled against an unchanged
dataset, at the failing input of one player URL whose identifier is already
in the resume set.  The work queue is filtered to empty and zero profile
fetches are initiated — the first half of the claim holds — but with an
empty results dictionary the success rate is computed as 0 rather than 100,
so _run_player_scraping returns false and main exits with status 1, while
the claim says the run is reported successful with exit status 0. -/
theorem claim_resume_second_run_eval :
    urlsToProcess ["john-smith-1"]
        ["https://www.sports-reference.com/cfb/players/john-smith-1.html"]
        true = [] ∧
    profileFetchCount ["john-smith-1"]
        ["https://www.sports-reference.com/cfb/players/john-smith-1.html"]
        true = 0 ∧
    scrapeResults ["john-smith-1"]
        ["https://www.sports-reference.com/cfb/players/john-smith-1.html"]
        true (fun _ => true) = [] ∧
    runPlayerScrapingReport [] = false ∧
    mainExitCode (runPlayerScrapingReport []) = 1 := by
  refine ⟨by decide, by decide, by decide, ?_, ?_⟩
  · simp [runPlayerScrapingReport, successRate]
  · simp [mainExitCode, runPlayerScrapingReport, successRate]

/-! ## C9 -/

/-- C9: evaluation of the resume-set listing at a store containing a player
record, the per-letter index cache entry player_index_A (the stem of
config.INDEX_CACHE_PATTERN), the summary report, and the consolidated index.
The file-store filter only excludes stems starting with index_, so the cache
entry player_index_A survives into the resume set; the CouchDB listing only
excludes ids starting with an underscore, so there both the cache entry and
the summary report survive — contradicting the claim that every
housekeeping identifier is excluded. -/
theorem claim_resume_set_housekeeping_eval :
    keepPlayerFileId (indexCacheStem "A") = true ∧
    getExistingPlayerFiles
        ["john-smith-1", indexCacheStem "A", summaryReportStem,
          "all_players_index"]
      = ["john-smith-1", "player_index_A"] ∧
    couchKeepDocId (indexCacheStem "A") = true ∧
    getAllDocumentIds
        ["john-smith-1", indexCacheStem "A", summaryReportStem]
      = ["john-smith-1", "player_index_A", "scraping_summary"] := by
  refine ⟨by decide, by decide, by decide, by decide⟩

/-! ## C10 -/

/-- Index correspondence for filter: the element at position i of the
filtered list sits at some source position j ≥ i, and the offset j - i
counts exactly the dropped elements among the first j + 1 source entries. -/
theorem filter_getD_source_index (P : String → Bool) :
    ∀ (S : List String) (i : Nat), i < (S.filter P).length →
      ∃ j, i ≤ j ∧ j < S.length ∧
        (S.filter P).getD i "" = S.getD j "" ∧
        j - i = (S.take (j + 1)).countP (fun x => !(P x)) := by
  intro S
  induction S with
  | nil => intro i hi; simp at hi
  | cons x S ih =>
    intro i hi
    by_cases hx : P x = true
    · rw [List.filter_cons_of_pos hx] at hi ⊢
      cases i with
      | zero =>
        refine ⟨0, Nat.le_refl _, by simp, by simp, ?_⟩
        simp [List.countP_cons, hx]
      | succ i =>
        obtain ⟨j, hij, hj, hval, hcount⟩ := ih i (by simpa using hi)
        refine ⟨j + 1, by omega, by simpa using hj, by simpa using hval, ?_⟩
        rw [List.take_succ_cons, List.countP_cons]
        simp only [hx, Bool.not_true, Bool.false_eq_true, if_false]
        omega
    · have hxf : P x = false := Bool.not_eq_true _ ▸ hx
      rw [List.filter_cons_of_neg (by simp [hxf])] at hi ⊢
      obtain ⟨j, hij, hj, hval, hcount⟩ := ih i hi
      refine ⟨j + 1, by omega, by simpa using hj, by simpa using hval, ?_⟩
      rw [List.take_succ_cons, List.countP_cons]
      simp only [hxf, Bool.not_false, if_true]
      omega

/-- Every header kept from a header row is a non-empty text. -/
theorem mem_headerCellTexts_ne_empty {r : Row} {h : String}
    (hm : h ∈ headerCellTexts r) : h ≠ "" := by
  simp only [headerCellTexts, List.mem_filter, decide_eq_true_eq] at hm
  exact hm.2

/-- Every header resolved from a thead is a non-empty text. -/
theorem mem_theadHeaders_ne_empty {t : HtmlTable} {h : String}
    (hm : h ∈ theadHeaders t) : h ≠ "" := by
  rcases t with ⟨thead, tbody, loose⟩
  cases thead with
  | none => cases hm
  | some trs =>
    cases hlast : trs.getLast? with
    | none => simp [theadHeaders, hlast] at hm
    | some r =>
      simp only [theadHeaders, hlast] at hm
      exact mem_headerCellTexts_ne_empty hm

/-- Every header resolved from the first table row is a non-empty text. -/
theorem mem_firstRowHeaders_ne_empty {t : HtmlTable} {h : String}
    (hm : h ∈ firstRowHeaders t) : h ≠ "" := by
  unfold firstRowHeaders at hm
  cases hh : t.allRows.head? with
  | none => rw [hh] at hm; cases hm
  | some r => rw [hh] at hm; exact mem_headerCellTexts_ne_empty hm

/-- The resolved header list of a table contains only non-empty texts. -/
theorem resolveHeaders_ne_empty (t : HtmlTable) :
    ∀ h ∈ resolveHeaders t, h ≠ "" := by
  intro h hm
  simp only [resolveHeaders] at hm
  by_cases hth : theadHeaders t = []
  · rw [if_pos hth] at hm
    exact mem_firstRowHeaders_ne_empty hm
  · rw [if_neg hth] at hm
    exact mem_theadHeaders_ne_empty hm

/-- C10 (amended): the resolved header list keeps only non-empty cell texts,
so a header row containing an empty cell text at position p yields strictly
fewer headers than the row has cells, and every resolved header at a
position i at or after p is the text of a source header column strictly
*later* than i — the binding of the data cell at position i shifts to the
header of a later source column (not an earlier one), and trailing data
cells beyond the shortened header count are dropped. -/
theorem claim_empty_header_shift_amended (t : HtmlTable) (r : Row)
    (p i : Nat) (hp : p < r.cells.length)
    (hemp : (r.cells.map Cell.text).getD p "" = "")
    (hpi : p ≤ i) (hi : i < (headerCellTexts r).length) :
    (∀ h ∈ resolveHeaders t, h ≠ "") ∧
    (headerCellTexts r).length < r.cells.length ∧
    (∃ j, i < j ∧ j < r.cells.length ∧
      (headerCellTexts r).getD i "" = (r.cells.map Cell.text).getD j "") := by
  have hfil : headerCellTexts r
      = (r.cells.map Cell.text).filter (fun s => decide (s ≠ "")) := rfl
  have hplen : p < (r.cells.map Cell.text).length := by
    simpa using hp
  have hpelem : (r.cells.map Cell.text).getD p ""
      ∈ r.cells.map Cell.text := by
    rw [List.getD_eq_getElem _ _ hplen]
    exact List.getElem_mem hplen
  refine ⟨resolveHeaders_ne_empty t, ?_, ?_⟩
  · have hlt : ((r.cells.map Cell.text).filter
        (fun s => decide (s ≠ ""))).length < (r.cells.map Cell.text).length :=
      List.length_filter_lt_length_iff_exists.mpr
        ⟨(r.cells.map Cell.text).getD p "", hpelem, by rw [hemp]; simp⟩
    rw [hfil]
    simpa using hlt
  · rw [hfil] at hi ⊢
    obtain ⟨j, hij, hj, hval, hcount⟩ :=
      filter_getD_source_index (fun s => decide (s ≠ ""))
        (r.cells.map Cell.text) i hi
    refine ⟨j, ?_, by simpa using hj, hval⟩
    have hptake : p < ((r.cells.map Cell.text).take (j + 1)).length := by
      rw [List.length_take]
      omega
    have hmem : "" ∈ (r.cells.map Cell.text).take (j + 1) := by
      have h1 : ((r.cells.map Cell.text).take (j + 1))[p] =
          (r.cells.map Cell.text)[p] := List.getElem_take _
      have h2 : (r.cells.map Cell.text)[p] = "" := by
        rw [← List.getD_eq_getElem _ _ hplen]
        exact hemp
      have h3 := List.getElem_mem hptake
      rw [h1, h2] at h3
      exact h3
    have hcpos : 0 < ((r.cells.map Cell.text).take (j + 1)).countP
        (fun x => !(decide (x ≠ ""))) :=
      List.countP_pos_iff.mpr ⟨"", hmem, by simp⟩
    omega

/-- C10 counterexample: a header row with texts A, empty, B over a data row
x, y, z.  The resolved headers are [A, B]; the data cell y at column
position 1 is bound to the header B, which is the text of source header
column 2 — a *later* source column — and differs from the texts A and empty
of the columns at or before position 1, refuting the claim that the binding
shifts to the header of an earlier source column; the trailing cell z is
dropped. -/
theorem claim_empty_header_shift_counterexample :
    resolveHeaders
      (HtmlTable.mk none none
        [Row.mk [Cell.mk CellTag.th none "A", Cell.mk CellTag.th none "",
          Cell.mk CellTag.th none "B"],
         Row.mk [Cell.mk CellTag.td none "x", Cell.mk CellTag.td none "y",
          Cell.mk CellTag.td none "z"]]) = ["A", "B"] ∧
    parseStatsTable
      (HtmlTable.mk none none
        [Row.mk [Cell.mk CellTag.th none "A", Cell.mk CellTag.th none "",
          Cell.mk CellTag.th none "B"],
         Row.mk [Cell.mk CellTag.td none "x", Cell.mk CellTag.td none "y",
          Cell.mk CellTag.td none "z"]]) = [[("A", "x"), ("B", "y")]] ∧
    ((Row.mk [Cell.mk CellTag.th none "A", Cell.mk CellTag.th none "",
        Cell.mk CellTag.th none "B"]).cells.map Cell.text).getD 2 "" = "B" ∧
    ("B" : String) ≠ "A" ∧ ("B" : String) ≠ "" := by
  refine ⟨by decide, by decide, by decide, by decide, by decide⟩

/-- Witness for the amended C10: the header row A, empty, B with the empty
text at position 1 satisfies the hypotheses at i = 1, and the resolved
header at position 1 is the text of source column 2. -/
theorem claim_empty_header_shift_amended_witness :
    (∀ h ∈ resolveHeaders (HtmlTable.mk none none []), h ≠ "") ∧
    (headerCellTexts (Row.mk [Cell.mk CellTag.th none "A",
        Cell.mk CellTag.th none "", Cell.mk CellTag.th none "B"])).length
      < (Row.mk [Cell.mk CellTag.th none "A", Cell.mk CellTag.th none "",
        Cell.mk CellTag.th none "B"]).cells.length ∧
    (∃ j, 1 < j ∧
      j < (Row.mk [Cell.mk CellTag.th none "A", Cell.mk CellTag.th none "",
        Cell.mk CellTag.th none "B"]).cells.length ∧
      (headerCellTexts (Row.mk [Cell.mk CellTag.th none "A",
          Cell.mk CellTag.th none "", Cell.mk CellTag.th none "B"])).getD 1 ""
        = ((Row.mk [Cell.mk CellTag.th none "A", Cell.mk CellTag.th none "",
          Cell.mk CellTag.th none "B"]).cells.map Cell.text).getD j "") :=
  claim_empty_header_shift_amended (HtmlTable.mk none none [])
    (Row.mk [Cell.mk CellTag.th none "A", Cell.mk CellTag.th none "",
      Cell.mk CellTag.th none "B"])
    1 1 (by decide) (by decide) (by decide) (by decide)

end NCAAF
